import Mathlib

/-!
Shallow embedding of src/main.py (world-generation service).

Conventions of the embedding:
* Raw model text is a list of characters; Python string indices become list
  positions.
* Python floats are modelled as rationals; the library float square root
  (math.sqrt) is an abstract parameter msqrt, since only its value at the
  computed argument ever reaches a result.
* json.loads is an abstract parse oracle returning the parsed object as an
  association list (a JSON text delimited by a leading brace and a trailing
  brace parses, when it parses at all, to an object).
* Calls to the external generative and embedding providers are parameters:
  an Except value for one generation call, and a per-attempt outcome
  function for the embedding provider.
* A Python exception escaping a handler is modelled by an Except.error
  result; a bare return is Except.ok.
-/

namespace NullOrigin

/-- JSON values, the possible values of a parsed model payload. -/
inductive JValue where
  | str (s : String)
  | num (q : ℚ)
  | bool (b : Bool)
  | null
  | arr (elems : List JValue)
  | obj (fields : List (String × JValue))

/-- A JSON object as json.loads returns it: keys with values, in order. -/
abbrev JObject := List (String × JValue)

/-- Python dict lookup (d[k] / k in d) on an association list. -/
def dictLookup (k : String) : JObject → Option JValue
  | [] => none
  | (k1, v) :: rest => if k = k1 then some v else dictLookup k rest

/-- Python str.find: index of the first occurrence of c, or -1. -/
def pyFind (text : List Char) (c : Char) : Int :=
  match text.findIdx? (· = c) with
  | some i => (i : Int)
  | none => -1

/-- Python str.rfind: index of the last occurrence of c, or -1. -/
def pyRFind (text : List Char) (c : Char) : Int :=
  match text.reverse.findIdx? (· = c) with
  | some i => (text.length : Int) - 1 - (i : Int)
  | none => -1

/-- Python str.strip: drop leading and trailing whitespace. -/
def pyStrip (text : List Char) : List Char :=
  ((text.dropWhile Char.isWhitespace).reverse.dropWhile Char.isWhitespace).reverse

/-- src/main.py lines 77-88, extract_json_and_reasoning(text).
parse is the json.loads oracle; a parse failure (the bare except) yields
none, as do a missing brace and an out-of-order brace pair. -/
def extract_json_and_reasoning (parse : List Char → Option JObject)
    (text : List Char) : Option (List Char × JObject) :=
  let start := pyFind text '{'
  let e := pyRFind text '}'
  if start = -1 ∨ e = -1 ∨ e ≤ start then none
  else
    let reasoning := pyStrip (text.take start.toNat)
    let json_text := (text.take (e.toNat + 1)).drop start.toNat
    match parse json_text with
    | some parsed => some (reasoning, parsed)
    | none => none

/-- src/main.py lines 125-127: the merge loop of generate_world.
Iterates over the keys of the defaults record (in insertion order) and
overwrites each one that also occurs in the parsed object. -/
def reconcileMerge (world parsed : JObject) : JObject :=
  world.map fun kv =>
    match dictLookup kv.1 parsed with
    | some v => (kv.1, v)
    | none => kv

/-- Outcome of one embed_content call: a vector, or an exception whose
message contains "429" (rate limit) or not. -/
inductive EmbedOutcome where
  | ok (values : List ℚ)
  | err (rateLimited : Bool)

/-- Observable behaviour of one embed_text call: the returned value,
the time.sleep durations performed in order, and how many provider
attempts were made. -/
structure EmbedTrace where
  result : Option (List ℚ)
  sleeps : List ℕ
  attempts : ℕ
deriving DecidableEq

/-- src/main.py lines 92-101: the retry loop of embed_text, with the
remaining iterations of range(3) as fuel and the current attempt index.
Falling out of the loop (fuel 0) is Python's implicit return None. -/
def embedLoop (provider : ℕ → EmbedOutcome) :
    (fuel attempt : ℕ) → List ℕ → EmbedTrace
  | 0, attempt, sleeps => { result := none, sleeps := sleeps, attempts := attempt }
  | fuel + 1, attempt, sleeps =>
    match provider attempt with
    | .ok v => { result := some v, sleeps := sleeps, attempts := attempt + 1 }
    | .err rl =>
      if rl ∧ attempt < 2 then
        embedLoop provider fuel (attempt + 1) (sleeps ++ [2 ^ attempt])
      else
        { result := none, sleeps := sleeps, attempts := attempt + 1 }

/-- src/main.py lines 90-101, embed_text: up to 3 attempts starting at
attempt 0 with no sleeps performed yet. -/
def embed_text (provider : ℕ → EmbedOutcome) : EmbedTrace :=
  embedLoop provider 3 0 []

/-- src/main.py lines 34-35: sum of element-wise products; zip silently
truncates to the shorter argument. -/
def dot_product (a b : List ℚ) : ℚ :=
  ((a.zip b).map fun p => p.1 * p.2).sum

/-- src/main.py lines 37-41: cosine similarity. Python float division
raises ZeroDivisionError exactly when the divisor is zero; none models
that exception, some the returned quotient. msqrt models math.sqrt. -/
def cosine_similarity (msqrt : ℚ → ℚ) (a b : List ℚ) : Option ℚ :=
  let dot := dot_product a b
  let norm_a := msqrt (dot_product a a)
  let norm_b := msqrt (dot_product b b)
  if norm_a * norm_b = 0 then none else some (dot / (norm_a * norm_b))

/-- src/main.py lines 43-44: Euclidean distance; zip silently truncates
to the shorter argument. msqrt models math.sqrt. -/
def euclidean_distance (msqrt : ℚ → ℚ) (a b : List ℚ) : ℚ :=
  msqrt ((a.zip b).map fun p => (p.1 - p.2) ^ 2).sum

/-- src/main.py lines 108-114: the fallback world record, in dict
insertion order. -/
def fallback_world (biome culture tone : String) : JObject :=
  [("summary", .str "A mystical desert world shaped by nomadic wisdom."),
   ("biome", .str biome),
   ("culture", .str culture),
   ("tone", .str tone),
   ("myth", .str "The Whispering Wind guides lost souls to hidden sanctuaries.")]

/-- Result record of generate_world (src/main.py lines 134-138). -/
structure GenResult where
  reasoning : List Char
  world : JObject
  embedding : Option (List ℚ)

/-- src/main.py lines 103-138, generate_world. genText models
model.generate_content(prompt).text: ok with the response text, or error
when the call raises (the except branch). provider models the embedding
provider's outcomes, per attempt, on the embedding input built from the
resulting world. -/
def generate_world (parse : List Char → Option JObject)
    (genText : Except Unit (List Char)) (provider : ℕ → EmbedOutcome)
    (biome culture tone : String) : GenResult :=
  let world0 := fallback_world biome culture tone
  let rw : List Char × JObject :=
    match genText with
    | .error _ => ([], world0)
    | .ok text =>
      match extract_json_and_reasoning parse text with
      | some (reasoning, parsed_world) => (reasoning, reconcileMerge world0 parsed_world)
      | none => ([], world0)
  { reasoning := rw.1, world := rw.2, embedding := (embed_text provider).result }

/-- A stored world (src/main.py lines 145-150): the assigned id, the
reasoning, the five world fields in dict order, and the embedding. -/
structure FullWorld where
  id : ℕ
  reasoning : List Char
  world : JObject
  embedding : Option (List ℚ)

/-- src/main.py lines 144-151 and 236-243: both routes assign
new_id = len(worlds) + 1 and append the assembled record. -/
def addWorld (worlds : List FullWorld) (r : GenResult) : List FullWorld :=
  worlds ++ [{ id := worlds.length + 1, reasoning := r.reasoning,
               world := r.world, embedding := r.embedding }]

/-- The stored list after a sequence of completed generation requests,
starting from the initial empty list (src/main.py line 18). -/
def runRequests (results : List GenResult) : List FullWorld :=
  results.foldl addWorld []

/-- Python truthiness of w["embedding"]: false for None and for an empty
list, true for a non-empty list. -/
def truthyEmbedding : Option (List ℚ) → Bool
  | none => false
  | some v => !v.isEmpty

/-- One entry of a similarity response (src/main.py lines 162-167):
id, summary and tone copied from the stored world, and the computed
metric value (named score, similarity or distance in the JSON). -/
structure Match where
  id : ℕ
  summary : Option JValue
  tone : Option JValue
  score : ℚ

/-- Builds the match record for one stored world from the computed
metric value. -/
def mkMatch (w : FullWorld) (s : ℚ) : Match :=
  { id := w.id, summary := dictLookup "summary" w.world,
    tone := dictLookup "tone" w.world, score := s }

/-- Exceptions the endpoint handlers can let escape. -/
inductive PyError where
  | typeError
  | zeroDivisionError
deriving DecidableEq

/-- The comprehension filter of the three endpoints: worlds whose
embedding is truthy, in stored order. -/
def candidateWorlds (worlds : List FullWorld) : List FullWorld :=
  worlds.filter fun w => truthyEmbedding w.embedding

/-- The unsorted match list of /similar-worlds-dot, in stored order. -/
def dotMatches (q : List ℚ) (worlds : List FullWorld) : List Match :=
  (candidateWorlds worlds).map fun w =>
    mkMatch w (dot_product q (w.embedding.getD []))

/-- Sort key of lines 170 and 185: ascending in the negated score, with
Python's stable sort. -/
def descLe (a b : Match) : Bool := decide (-a.score ≤ -b.score)

/-- Sort key of line 200: ascending in the distance. -/
def ascLe (a b : Match) : Bool := decide (a.score ≤ b.score)

/-- src/main.py lines 158-171, /similar-worlds-dot. qe is the query
embedding returned by embed_text (None on failure). Iterating None in
the comprehension raises TypeError as soon as one candidate exists;
with no candidates the body never runs and the empty list is returned. -/
def similar_dot (qe : Option (List ℚ)) (worlds : List FullWorld)
    (topN : ℕ) : Except PyError (List Match) :=
  match qe with
  | none => if (candidateWorlds worlds).isEmpty then .ok [] else .error .typeError
  | some q => .ok (((dotMatches q worlds).mergeSort descLe).take topN)

/-- The unsorted match list of /similar-worlds-cosine over a candidate
list, in stored order; error when some cosine_similarity call raises
ZeroDivisionError (the comprehension propagates the first such
exception, evaluating elements left to right). -/
def cosineMatches (msqrt : ℚ → ℚ) (q : List ℚ) :
    List FullWorld → Except PyError (List Match)
  | [] => .ok []
  | w :: rest =>
    match cosine_similarity msqrt q (w.embedding.getD []) with
    | none => .error PyError.zeroDivisionError
    | some s =>
      match cosineMatches msqrt q rest with
      | .error e => .error e
      | .ok ms => .ok (mkMatch w s :: ms)

/-- src/main.py lines 173-186, /similar-worlds-cosine. -/
def similar_cosine (msqrt : ℚ → ℚ) (qe : Option (List ℚ))
    (worlds : List FullWorld) (topN : ℕ) : Except PyError (List Match) :=
  match qe with
  | none => if (candidateWorlds worlds).isEmpty then .ok [] else .error .typeError
  | some q =>
    match cosineMatches msqrt q (candidateWorlds worlds) with
    | .error e => .error e
    | .ok ms => .ok ((ms.mergeSort descLe).take topN)

/-- The unsorted match list of /similar-worlds-l2, in stored order. -/
def l2Matches (msqrt : ℚ → ℚ) (q : List ℚ) (worlds : List FullWorld) :
    List Match :=
  (candidateWorlds worlds).map fun w =>
    mkMatch w (euclidean_distance msqrt q (w.embedding.getD []))

/-- src/main.py lines 188-201, /similar-worlds-l2. -/
def similar_l2 (msqrt : ℚ → ℚ) (qe : Option (List ℚ))
    (worlds : List FullWorld) (topN : ℕ) : Except PyError (List Match) :=
  match qe with
  | none => if (candidateWorlds worlds).isEmpty then .ok [] else .error .typeError
  | some q => .ok (((l2Matches msqrt q worlds).mergeSort ascLe).take topN)

/-! Concrete inputs used to instantiate the theorems below. -/

/-- A parse oracle answering a one-field object, for concrete runs. -/
def wParse : List Char → Option JObject :=
  fun _ => some [("summary", .str "X")]

/-- A parse oracle that always fails, for concrete runs. -/
def wNoParse : List Char → Option JObject := fun _ => none

/-- Concrete raw text with a brace pair: r followed by \x7bj\x7d. -/
def wText : List Char := "r \x7bj\x7d".data

/-- Concrete raw text with no brace at all. -/
def wNoBraceText : List Char := "no braces here".data

/-- Concrete defaults record with two keys. -/
def wDefaults : JObject := [("summary", .str "A"), ("myth", .str "B")]

/-- An embedding provider that fails without a rate limit. -/
def wProviderFail : ℕ → EmbedOutcome := fun _ => .err false

/-- An embedding provider that is rate-limited on every attempt. -/
def wProvider429 : ℕ → EmbedOutcome := fun _ => .err true

/-- A stored world with a one-component embedding. -/
def wA : FullWorld :=
  { id := 1, reasoning := [],
    world := [("summary", .str "sA"), ("tone", .str "tA")],
    embedding := some [3] }

/-- A second stored world with a one-component embedding. -/
def wB : FullWorld :=
  { id := 2, reasoning := [],
    world := [("summary", .str "sB"), ("tone", .str "tB")],
    embedding := some [1] }

/-- A stored world whose embedding is present but empty. -/
def cw0 : FullWorld :=
  { id := 1, reasoning := [], world := fallback_world "b" "c" "t",
    embedding := some [] }

/-- A concrete query embedding. -/
def wQ : List ℚ := [2]

/-- The cosine match list computed for wQ against the stored pair
wA, wB with a constant-one square root. -/
def wCms : List Match :=
  [{ id := 1, summary := some (.str "sA"), tone := some (.str "tA"), score := 6 },
   { id := 2, summary := some (.str "sB"), tone := some (.str "tB"), score := 2 }]

/-! General lemmas about the embedded operations. -/

lemma reconcileMerge_keys (d p : JObject) :
    (reconcileMerge d p).map Prod.fst = d.map Prod.fst := by
  induction d with
  | nil => rfl
  | cons kv rest ih =>
    cases h : dictLookup kv.1 p <;>
      simp_all [reconcileMerge, List.map_cons, h]

lemma reconcileMerge_lookup (d p : JObject) (k : String) (dv : JValue)
    (hd : dictLookup k d = some dv) :
    dictLookup k (reconcileMerge d p) = some ((dictLookup k p).getD dv) := by
  induction d with
  | nil => simp [dictLookup] at hd
  | cons kv rest ih =>
    obtain ⟨k1, v1⟩ := kv
    by_cases hk : k = k1
    · subst hk
      simp only [dictLookup, if_pos rfl] at hd
      obtain rfl : v1 = dv := by injection hd
      cases h : dictLookup k p <;>
        simp [reconcileMerge, dictLookup, h]
    · simp only [dictLookup, if_neg hk] at hd
      have ih2 := ih hd
      simp only [reconcileMerge] at ih2
      cases h : dictLookup k1 p <;>
        simp [reconcileMerge, dictLookup, h, hk, ih2]

/-! Claim theorems. -/

/-- C1: whenever the first opening brace of the raw text precedes its last
closing brace and the enclosed substring parses as JSON, extraction
returns the stripped leading text with the parsed object, and merging any
defaults record with the parsed object keeps exactly the defaults' keys,
overwrites each key that is present in the parsed object with the parsed
value, and keeps the default value for each key absent from it. -/
theorem extract_and_merge_spec (parse : List Char → Option JObject)
    (text : List Char) (s e : ℕ) (p d : JObject)
    (hs : pyFind text '{' = (s : Int)) (he : pyRFind text '}' = (e : Int))
    (hlt : s < e) (hp : parse ((text.take (e + 1)).drop s) = some p) :
    extract_json_and_reasoning parse text
        = some (pyStrip (text.take s), p)
      ∧ (reconcileMerge d p).map Prod.fst = d.map Prod.fst
      ∧ ∀ k dv, dictLookup k d = some dv →
          dictLookup k (reconcileMerge d p) = some ((dictLookup k p).getD dv) := by
  refine ⟨?_, reconcileMerge_keys d p, fun k dv hd => reconcileMerge_lookup d p k dv hd⟩
  simp only [extract_json_and_reasoning, hs, he]
  rw [if_neg (by push_neg; refine ⟨?_, ?_, ?_⟩ <;> omega)]
  simp only [Int.toNat_natCast, hp]

/-- C1 witness: a concrete extraction and merge. -/
theorem extract_and_merge_spec_witness :
    extract_json_and_reasoning wParse wText
        = some ("r".data, [("summary", JValue.str "X")])
      ∧ dictLookup "summary"
          (reconcileMerge wDefaults [("summary", JValue.str "X")])
        = some ((dictLookup "summary" [("summary", JValue.str "X")]).getD
            (JValue.str "A")) := by
  have h := extract_and_merge_spec wParse wText 2 4
    [("summary", JValue.str "X")] wDefaults (by decide) (by decide)
    (by decide) rfl
  exact ⟨h.1.trans (by rfl), h.2.2 "summary" (JValue.str "A") rfl⟩

/-- C2: when the raw text has no opening brace, or no closing brace, or its
last closing brace occurs at or before its first opening brace, or the
enclosed substring fails to parse, extraction returns none (no exception
reaches the caller), and generate_world on that text yields empty
reasoning with the fallback defaults record unchanged. -/
theorem reconcile_malformed_degrades (parse : List Char → Option JObject)
    (provider : ℕ → EmbedOutcome) (biome culture tone : String)
    (text : List Char)
    (hmal : pyFind text '{' = -1 ∨ pyRFind text '}' = -1
        ∨ pyRFind text '}' ≤ pyFind text '{'
        ∨ parse ((text.take ((pyRFind text '}').toNat + 1)).drop
            (pyFind text '{').toNat) = none) :
    extract_json_and_reasoning parse text = none
    ∧ (generate_world parse (.ok text) provider biome culture tone).reasoning = []
    ∧ (generate_world parse (.ok text) provider biome culture tone).world
        = fallback_world biome culture tone := by
  have hext : extract_json_and_reasoning parse text = none := by
    simp only [extract_json_and_reasoning]
    by_cases hc : pyFind text '{' = -1 ∨ pyRFind text '}' = -1
        ∨ pyRFind text '}' ≤ pyFind text '{'
    · rw [if_pos hc]
    · rw [if_neg hc]
      rcases hmal with h | h | h | h
      · exact absurd (Or.inl h) hc
      · exact absurd (Or.inr (Or.inl h)) hc
      · exact absurd (Or.inr (Or.inr h)) hc
      · rw [h]
  exact ⟨hext, by simp [generate_world, hext], by simp [generate_world, hext]⟩

/-- C2 witness: a concrete brace-free text degrades to the defaults. -/
theorem reconcile_malformed_degrades_witness :
    extract_json_and_reasoning wNoParse wNoBraceText = none
    ∧ (generate_world wNoParse (.ok wNoBraceText) wProviderFail
        "tundra" "nomadic" "hopeful").reasoning = []
    ∧ (generate_world wNoParse (.ok wNoBraceText) wProviderFail
        "tundra" "nomadic" "hopeful").world
        = fallback_world "tundra" "nomadic" "hopeful" :=
  reconcile_malformed_degrades wNoParse wProviderFail
    "tundra" "nomadic" "hopeful" wNoBraceText (Or.inl (by decide))

/-- C3: when the generative-model invocation raises, generate_world
returns empty reasoning and a world whose summary and myth are the fixed
fallback literals and whose biome, culture and tone are the caller's
inputs; no failure propagates. -/
theorem generate_world_fallback_on_failure (parse : List Char → Option JObject)
    (provider : ℕ → EmbedOutcome) (biome culture tone : String) :
    (generate_world parse (.error ()) provider biome culture tone).reasoning = []
    ∧ dictLookup "summary"
        (generate_world parse (.error ()) provider biome culture tone).world
        = some (.str "A mystical desert world shaped by nomadic wisdom.")
    ∧ dictLookup "myth"
        (generate_world parse (.error ()) provider biome culture tone).world
        = some (.str "The Whispering Wind guides lost souls to hidden sanctuaries.")
    ∧ dictLookup "biome"
        (generate_world parse (.error ()) provider biome culture tone).world
        = some (.str biome)
    ∧ dictLookup "culture"
        (generate_world parse (.error ()) provider biome culture tone).world
        = some (.str culture)
    ∧ dictLookup "tone"
        (generate_world parse (.error ()) provider biome culture tone).world
        = some (.str tone) :=
  ⟨rfl, rfl, rfl, rfl, rfl, rfl⟩

lemma zip_take_eq (a b : List ℚ) :
    a.zip b = (a.take b.length).zip (b.take a.length) := by
  induction a generalizing b with
  | nil => simp
  | cons x xs ih =>
    cases b with
    | nil => simp
    | cons y ys => simp [ih ys]

/-- C5 counterexample: on arguments of different lengths both functions
return a value computed over the shorter common prefix instead of
failing with a length-mismatch error. -/
theorem dot_l2_no_length_error :
    dot_product [1, 2, 3] [4, 5] = 14
    ∧ euclidean_distance id [0, 0, 7] [3, 4] = 25 := by
  constructor <;> norm_num [dot_product, euclidean_distance, List.zip]

/-- C5 amended: dot_product and euclidean_distance signal no length
mismatch when the argument lengths differ; each silently computes its
result over the element pairs of the shorter common length, exactly as
if both arguments were truncated to it. -/
theorem dot_l2_zip_truncate (msqrt : ℚ → ℚ) (a b : List ℚ) :
    dot_product a b = dot_product (a.take b.length) (b.take a.length)
    ∧ euclidean_distance msqrt a b
        = euclidean_distance msqrt (a.take b.length) (b.take a.length) := by
  constructor
  · unfold dot_product
    rw [← zip_take_eq]
  · unfold euclidean_distance
    rw [← zip_take_eq]

lemma dot_product_self_zero (a : List ℚ) (h : ∀ x ∈ a, x = 0) :
    dot_product a a = 0 := by
  induction a with
  | nil => rfl
  | cons x xs ih =>
    have hx : x = 0 := h x (List.mem_cons_self x xs)
    have ih2 := ih fun y hy => h y (List.mem_cons_of_mem x hy)
    simp only [dot_product] at ih2 ⊢
    simp [hx, ih2]

/-- C6: for equal-length vectors, when either argument is the zero
vector the norm product is zero and cosine_similarity raises
ZeroDivisionError (modelled as none) instead of returning a value. -/
theorem cosine_zero_vector_raises (msqrt : ℚ → ℚ) (a b : List ℚ)
    (hsqrt : msqrt 0 = 0) (_hlen : a.length = b.length)
    (hzero : (∀ x ∈ a, x = 0) ∨ (∀ x ∈ b, x = 0)) :
    cosine_similarity msqrt a b = none := by
  simp only [cosine_similarity]
  rcases hzero with h | h
  · rw [dot_product_self_zero a h, hsqrt]
    simp
  · rw [dot_product_self_zero b h, hsqrt]
    simp

/-- C6 witness: the zero vector against a non-zero vector. -/
theorem cosine_zero_vector_raises_witness :
    cosine_similarity id [0, 0] [1, 2] = none :=
  cosine_zero_vector_raises id [0, 0] [1, 2] rfl rfl (Or.inl (by decide))

lemma runRequests_ids_aux (rs : List GenResult) :
    ∀ acc : List FullWorld,
      ((rs.foldl addWorld acc).map FullWorld.id)
        = acc.map FullWorld.id ++ List.range' (acc.length + 1) rs.length := by
  induction rs with
  | nil => intro acc; simp
  | cons r rest ih =>
    intro acc
    rw [List.foldl_cons, ih (addWorld acc r)]
    simp [addWorld, List.range'_succ, Nat.add_assoc]

/-- C7: after any sequence of completed generation requests the stored
ids, read in insertion order, are exactly 1, 2, ..., n: gap-free,
starting at 1, strictly increasing, never reused, and the world at
index i carries id i + 1. -/
theorem worlds_ids_dense (rs : List GenResult) :
    (runRequests rs).map FullWorld.id = List.range' 1 rs.length
    ∧ ((runRequests rs).map FullWorld.id).Pairwise (· < ·) := by
  have h : (runRequests rs).map FullWorld.id = List.range' 1 rs.length := by
    have h0 := runRequests_ids_aux rs []
    simpa [runRequests] using h0
  refine ⟨h, ?_⟩
  rw [h]
  simp [List.pairwise_lt_range']

/-- C9: embed_text makes at most 3 provider attempts; the sleeps between
attempts are exactly 1 and 2 time units in that order (doubling from 1);
every retried attempt had failed with a rate-limit error; when every
attempt is rate-limited the call returns an absent embedding after 3
attempts; and a non-rate-limit failure at any reached attempt ends the
call immediately with an absent embedding and no further attempt. -/
theorem embed_text_retry_policy (provider : ℕ → EmbedOutcome) :
    0 < (embed_text provider).attempts
    ∧ (embed_text provider).attempts ≤ 3
    ∧ (embed_text provider).sleeps
        = (List.range ((embed_text provider).attempts - 1)).map (fun i => 2 ^ i)
    ∧ (∀ i, i + 1 < (embed_text provider).attempts → provider i = .err true)
    ∧ ((∀ i, i < 3 → provider i = .err true) →
        (embed_text provider).result = none ∧ (embed_text provider).attempts = 3)
    ∧ (∀ i, i < (embed_text provider).attempts → provider i = .err false →
        (embed_text provider).result = none
        ∧ (embed_text provider).attempts = i + 1) := by
  cases h0 : provider 0 with
  | ok v0 =>
    have hT : embed_text provider = ⟨some v0, [], 1⟩ := by
      simp [embed_text, embedLoop, h0]
    rw [hT]
    refine ⟨by simp, by simp, by simp, fun i hi => ?_, fun hall => ?_,
      fun i hi hf => ?_⟩
    · exact absurd (show i + 1 < 1 from hi) (by omega)
    · have h := hall 0 (by omega)
      rw [h0] at h
      exact EmbedOutcome.noConfusion h
    · obtain rfl : i = 0 := by
        have h2 : i < 1 := hi
        omega
      rw [h0] at hf
      exact EmbedOutcome.noConfusion hf
  | err rl0 =>
    cases rl0 with
    | false =>
      have hT : embed_text provider = ⟨none, [], 1⟩ := by
        simp [embed_text, embedLoop, h0]
      rw [hT]
      refine ⟨by simp, by simp, by simp, fun i hi => ?_, fun hall => ?_,
        fun i hi hf => ?_⟩
      · exact absurd (show i + 1 < 1 from hi) (by omega)
      · have h := hall 0 (by omega)
        rw [h0] at h
        simp at h
      · obtain rfl : i = 0 := by
          have h2 : i < 1 := hi
          omega
        exact ⟨rfl, rfl⟩
    | true =>
      cases h1 : provider 1 with
      | ok v1 =>
        have hT : embed_text provider = ⟨some v1, [1], 2⟩ := by
          simp [embed_text, embedLoop, h0, h1]
        rw [hT]
        refine ⟨by simp, by simp, by norm_num [List.range_succ],
          fun i hi => ?_, fun hall => ?_, fun i hi hf => ?_⟩
        · obtain rfl : i = 0 := by
            have h2 : i + 1 < 2 := hi
            omega
          exact h0
        · have h := hall 1 (by omega)
          rw [h1] at h
          exact EmbedOutcome.noConfusion h
        · have h2 : i < 2 := hi
          have h3 : i = 0 ∨ i = 1 := by omega
          rcases h3 with rfl | rfl
          · rw [h0] at hf
            simp at hf
          · rw [h1] at hf
            exact EmbedOutcome.noConfusion hf
      | err rl1 =>
        cases rl1 with
        | false =>
          have hT : embed_text provider = ⟨none, [1], 2⟩ := by
            simp [embed_text, embedLoop, h0, h1]
          rw [hT]
          refine ⟨by simp, by simp, by norm_num [List.range_succ],
            fun i hi => ?_, fun hall => ?_, fun i hi hf => ?_⟩
          · obtain rfl : i = 0 := by
              have h2 : i + 1 < 2 := hi
              omega
            exact h0
          · have h := hall 1 (by omega)
            rw [h1] at h
            simp at h
          · have h2 : i < 2 := hi
            have h3 : i = 0 ∨ i = 1 := by omega
            rcases h3 with rfl | rfl
            · rw [h0] at hf
              simp at hf
            · exact ⟨rfl, rfl⟩
        | true =>
          cases h2 : provider 2 with
          | ok v2 =>
            have hT : embed_text provider = ⟨some v2, [1, 2], 3⟩ := by
              simp [embed_text, embedLoop, h0, h1, h2]
            rw [hT]
            refine ⟨by simp, by simp, by norm_num [List.range_succ],
              fun i hi => ?_, fun hall => ?_, fun i hi hf => ?_⟩
            · have hlt : i + 1 < 3 := hi
              have : i = 0 ∨ i = 1 := by omega
              rcases this with rfl | rfl
              · exact h0
              · exact h1
            · have h := hall 2 (by omega)
              rw [h2] at h
              exact EmbedOutcome.noConfusion h
            · have hlt : i < 3 := hi
              have : i = 0 ∨ i = 1 ∨ i = 2 := by omega
              rcases this with rfl | rfl | rfl
              · rw [h0] at hf
                simp at hf
              · rw [h1] at hf
                simp at hf
              · rw [h2] at hf
                exact EmbedOutcome.noConfusion hf
          | err rl2 =>
            have hT : embed_text provider = ⟨none, [1, 2], 3⟩ := by
              simp [embed_text, embedLoop, h0, h1, h2]
            rw [hT]
            refine ⟨by simp, by simp, by norm_num [List.range_succ],
              fun i hi => ?_, fun hall => ?_, fun i hi hf => ?_⟩
            · have hlt : i + 1 < 3 := hi
              have : i = 0 ∨ i = 1 := by omega
              rcases this with rfl | rfl
              · exact h0
              · exact h1
            · exact ⟨rfl, rfl⟩
            · have hlt : i < 3 := hi
              have : i = 0 ∨ i = 1 ∨ i = 2 := by omega
              rcases this with rfl | rfl | rfl
              · rw [h0] at hf
                simp at hf
              · rw [h1] at hf
                simp at hf
              · exact ⟨rfl, rfl⟩

/-- C9 witness: a provider rate-limited on every attempt exhausts the
3-attempt budget and degrades to an absent embedding. -/
theorem embed_text_retry_policy_witness :
    (embed_text wProvider429).result = none
    ∧ (embed_text wProvider429).attempts = 3 :=
  (embed_text_retry_policy wProvider429).2.2.2.2.1 (fun _ _ => rfl)

lemma descLe_trans (a b c : Match) (hab : descLe a b = true)
    (hbc : descLe b c = true) : descLe a c = true := by
  simp only [descLe, decide_eq_true_eq] at hab hbc ⊢
  linarith

lemma descLe_total (a b : Match) : (descLe a b || descLe b a) = true := by
  simp only [descLe, Bool.or_eq_true, decide_eq_true_eq]
  exact le_total _ _

lemma ascLe_trans (a b c : Match) (hab : ascLe a b = true)
    (hbc : ascLe b c = true) : ascLe a c = true := by
  simp only [ascLe, decide_eq_true_eq] at hab hbc ⊢
  linarith

lemma ascLe_total (a b : Match) : (ascLe a b || ascLe b a) = true := by
  simp only [ascLe, Bool.or_eq_true, decide_eq_true_eq]
  exact le_total _ _

/-- A stable sort leaves the elements of one key class in input order:
filtering the sorted list by a predicate whose holders are mutually
le-related gives the same list as filtering the input. -/
lemma mergeSort_filter_key (le : Match → Match → Bool)
    (htrans : ∀ a b c, le a b = true → le b c = true → le a c = true)
    (htotal : ∀ a b, (le a b || le b a) = true)
    (ms : List Match) (p : Match → Bool)
    (hp : ∀ a b, p a = true → p b = true → le a b = true) :
    (ms.mergeSort le).filter p = ms.filter p := by
  have hpair : (ms.filter p).Pairwise (fun a b => le a b = true) :=
    List.pairwise_of_forall_mem_list fun a ha b hb =>
      hp a b (List.of_mem_filter ha) (List.of_mem_filter hb)
  have hsub : (ms.filter p).Sublist (ms.mergeSort le) :=
    List.sublist_mergeSort htrans htotal hpair (List.filter_sublist ms)
  have hself : (ms.filter p).filter p = ms.filter p :=
    List.filter_eq_self.mpr fun a ha => List.of_mem_filter ha
  have hsub2 : (ms.filter p).Sublist ((ms.mergeSort le).filter p) := by
    have h := hsub.filter p
    rwa [hself] at h
  have hlen : ((ms.mergeSort le).filter p).length = (ms.filter p).length :=
    ((List.mergeSort_perm ms le).filter p).length_eq
  exact (hsub2.eq_of_length hlen.symm).symm

lemma equal_score_le (le : Match → Match → Bool)
    (hle : ∀ a b, a.score = b.score → le a b = true) (s : ℚ) :
    ∀ a b, decide (a.score = s) = true → decide (b.score = s) = true →
      le a b = true := by
  intro a b ha hb
  exact hle a b ((of_decide_eq_true ha).trans (of_decide_eq_true hb).symm)

/-- The sorted prefix an endpoint returns: pairwise ordered by its key,
and each equal-score class is a sublist of the unsorted input (input
iteration order preserved among ties). -/
lemma take_mergeSort_props (le : Match → Match → Bool)
    (htrans : ∀ a b c, le a b = true → le b c = true → le a c = true)
    (htotal : ∀ a b, (le a b || le b a) = true)
    (hle : ∀ a b, a.score = b.score → le a b = true)
    (ms : List Match) (n : ℕ) :
    ((ms.mergeSort le).take n).Pairwise (fun a b => le a b = true)
    ∧ ∀ s : ℚ, (((ms.mergeSort le).take n).filter
          fun m => decide (m.score = s)).Sublist
        (ms.filter fun m => decide (m.score = s)) := by
  constructor
  · exact (List.sorted_mergeSort htrans htotal ms).sublist
      (List.take_sublist n _)
  · intro s
    have h := (List.take_sublist n (ms.mergeSort le)).filter
      fun m => decide (m.score = s)
    rwa [mergeSort_filter_key le htrans htotal ms _
      (equal_score_le le hle s)] at h

lemma descLe_of_eq (a b : Match) (h : a.score = b.score) : descLe a b = true := by
  simp [descLe, h]

lemma ascLe_of_eq (a b : Match) (h : a.score = b.score) : ascLe a b = true := by
  simp [ascLe, h]

/-- C4: with a present query embedding, the dot and cosine endpoints
return their matches sorted descending in the computed score and the
Euclidean endpoint sorted ascending in the distance, and within each
equal-score class the returned matches keep the input iteration
(insertion/id) order of the stored worlds. -/
theorem similar_endpoints_sorted (msqrt : ℚ → ℚ) (q : List ℚ)
    (worlds : List FullWorld) (topN : ℕ) (cms : List Match)
    (hok : cosineMatches msqrt q (candidateWorlds worlds) = .ok cms) :
    similar_dot (some q) worlds topN
        = .ok (((dotMatches q worlds).mergeSort descLe).take topN)
    ∧ (((dotMatches q worlds).mergeSort descLe).take topN).Pairwise
        (fun a b => b.score ≤ a.score)
    ∧ (∀ s : ℚ,
        ((((dotMatches q worlds).mergeSort descLe).take topN).filter
            fun m => decide (m.score = s)).Sublist
          ((dotMatches q worlds).filter fun m => decide (m.score = s)))
    ∧ similar_cosine msqrt (some q) worlds topN
        = .ok ((cms.mergeSort descLe).take topN)
    ∧ ((cms.mergeSort descLe).take topN).Pairwise
        (fun a b => b.score ≤ a.score)
    ∧ (∀ s : ℚ, (((cms.mergeSort descLe).take topN).filter
            fun m => decide (m.score = s)).Sublist
          (cms.filter fun m => decide (m.score = s)))
    ∧ similar_l2 msqrt (some q) worlds topN
        = .ok (((l2Matches msqrt q worlds).mergeSort ascLe).take topN)
    ∧ (((l2Matches msqrt q worlds).mergeSort ascLe).take topN).Pairwise
        (fun a b => a.score ≤ b.score)
    ∧ (∀ s : ℚ,
        ((((l2Matches msqrt q worlds).mergeSort ascLe).take topN).filter
            fun m => decide (m.score = s)).Sublist
          ((l2Matches msqrt q worlds).filter fun m => decide (m.score = s))) := by
  have hdot := take_mergeSort_props descLe descLe_trans descLe_total
    descLe_of_eq (dotMatches q worlds) topN
  have hcos := take_mergeSort_props descLe descLe_trans descLe_total
    descLe_of_eq cms topN
  have hl2 := take_mergeSort_props ascLe ascLe_trans ascLe_total
    ascLe_of_eq (l2Matches msqrt q worlds) topN
  refine ⟨rfl, ?_, hdot.2, by simp [similar_cosine, hok], ?_, hcos.2,
    rfl, ?_, hl2.2⟩
  · exact hdot.1.imp fun h => by
      simpa [descLe, decide_eq_true_eq] using h
  · exact hcos.1.imp fun h => by
      simpa [descLe, decide_eq_true_eq] using h
  · exact hl2.1.imp fun h => by
      simpa [ascLe, decide_eq_true_eq] using h

/-- C4 witness: a concrete two-world store with a present query
embedding exercises all three endpoints. -/
theorem similar_endpoints_sorted_witness :
    similar_dot (some wQ) [wA, wB] 2
        = .ok (((dotMatches wQ [wA, wB]).mergeSort descLe).take 2)
    ∧ (((dotMatches wQ [wA, wB]).mergeSort descLe).take 2).Pairwise
        (fun a b => b.score ≤ a.score)
    ∧ ((((dotMatches wQ [wA, wB]).mergeSort descLe).take 2).filter
          fun m => decide (m.score = 6)).Sublist
        ((dotMatches wQ [wA, wB]).filter fun m => decide (m.score = 6))
    ∧ similar_cosine (fun _ => 1) (some wQ) [wA, wB] 2
        = .ok ((wCms.mergeSort descLe).take 2)
    ∧ similar_l2 (fun _ => 1) (some wQ) [wA, wB] 2
        = .ok (((l2Matches (fun _ => 1) wQ [wA, wB]).mergeSort ascLe).take 2) := by
  have hok : cosineMatches (fun _ => 1) wQ (candidateWorlds [wA, wB]) = .ok wCms := by
    norm_num [cosineMatches, candidateWorlds, truthyEmbedding, wA, wB, wQ,
      cosine_similarity, dot_product, mkMatch, dictLookup, wCms, List.zip]
    decide
  have h := similar_endpoints_sorted (fun _ => 1) wQ [wA, wB] 2 wCms hok
  exact ⟨h.1, h.2.1, h.2.2.1 6, h.2.2.2.1, h.2.2.2.2.2.2.1⟩

/-- Every match an ok cosine computation produces comes from a candidate
world and carries its id, summary, tone and computed score. -/
lemma cosineMatches_mem (msqrt : ℚ → ℚ) (q : List ℚ) :
    ∀ (cands : List FullWorld) (cms : List Match),
      cosineMatches msqrt q cands = .ok cms →
      ∀ m ∈ cms, ∃ w ∈ cands, ∃ s,
        cosine_similarity msqrt q (w.embedding.getD []) = some s
        ∧ m = mkMatch w s := by
  intro cands
  induction cands with
  | nil =>
    intro cms h m hm
    simp only [cosineMatches, Except.ok.injEq] at h
    subst h
    simp at hm
  | cons w rest ih =>
    intro cms h m hm
    cases hc : cosine_similarity msqrt q (w.embedding.getD []) with
    | none =>
      simp only [cosineMatches, hc] at h
      exact Except.noConfusion h
    | some s =>
      cases hr : cosineMatches msqrt q rest with
      | error e =>
        simp only [cosineMatches, hc, hr] at h
        exact Except.noConfusion h
      | ok ms =>
        simp only [cosineMatches, hc, hr, Except.ok.injEq] at h
        subst h
        rcases List.mem_cons.mp hm with rfl | hm2
        · exact ⟨w, List.mem_cons_self w rest, s, hc, rfl⟩
        · obtain ⟨w2, hw2, s2, hc2, hm3⟩ := ih ms hr m hm2
          exact ⟨w2, List.mem_cons_of_mem w hw2, s2, hc2, hm3⟩

lemma truthy_ne_none (e : Option (List ℚ)) (h : truthyEmbedding e = true) :
    e ≠ none := by
  cases e with
  | none => simp [truthyEmbedding] at h
  | some v => simp

/-- C8: every match any of the three endpoints returns comes from a
stored world whose embedding passes the truthiness filter (so is, in
particular, not absent); stored worlds with an absent embedding are
excluded from the matches, whatever topN is. -/
theorem endpoints_exclude_absent (msqrt : ℚ → ℚ) (qe : Option (List ℚ))
    (worlds : List FullWorld) (topN : ℕ) :
    (∀ r, similar_dot qe worlds topN = .ok r → ∀ m ∈ r,
      ∃ w, w ∈ worlds ∧ truthyEmbedding w.embedding = true
        ∧ w.embedding ≠ none ∧ m = mkMatch w m.score)
    ∧ (∀ r, similar_cosine msqrt qe worlds topN = .ok r → ∀ m ∈ r,
      ∃ w, w ∈ worlds ∧ truthyEmbedding w.embedding = true
        ∧ w.embedding ≠ none ∧ m = mkMatch w m.score)
    ∧ (∀ r, similar_l2 msqrt qe worlds topN = .ok r → ∀ m ∈ r,
      ∃ w, w ∈ worlds ∧ truthyEmbedding w.embedding = true
        ∧ w.embedding ≠ none ∧ m = mkMatch w m.score) := by
  have hnone : ∀ (f : Except PyError (List Match)) (r : List Match),
      f = (if (candidateWorlds worlds).isEmpty then Except.ok []
           else Except.error PyError.typeError) →
      f = .ok r → r = [] := by
    intro f r hf hr
    cases hemp : (candidateWorlds worlds).isEmpty <;> rw [hemp] at hf <;>
      simp [hf] at hr <;> simp [hr]
  refine ⟨?_, ?_, ?_⟩
  · intro r hr m hm
    cases qe with
    | none =>
      obtain rfl := hnone _ r rfl hr
      simp at hm
    | some q =>
      simp only [similar_dot, Except.ok.injEq] at hr
      subst hr
      have hm2 : m ∈ (dotMatches q worlds).mergeSort descLe :=
        (List.take_sublist _ _).subset hm
      have hm3 : m ∈ dotMatches q worlds :=
        (List.mergeSort_perm (dotMatches q worlds) descLe).subset hm2
      obtain ⟨w, hw, rfl⟩ := List.mem_map.mp hm3
      obtain ⟨hwin, hwt⟩ := List.mem_filter.mp hw
      exact ⟨w, hwin, hwt, truthy_ne_none _ hwt, rfl⟩
  · intro r hr m hm
    cases qe with
    | none =>
      obtain rfl := hnone _ r rfl hr
      simp at hm
    | some q =>
      cases hcm : cosineMatches msqrt q (candidateWorlds worlds) with
      | error e =>
        simp only [similar_cosine, hcm] at hr
        exact Except.noConfusion hr
      | ok cms =>
        simp only [similar_cosine, hcm, Except.ok.injEq] at hr
        subst hr
        have hm2 : m ∈ cms.mergeSort descLe := (List.take_sublist _ _).subset hm
        have hm3 : m ∈ cms := (List.mergeSort_perm cms descLe).subset hm2
        obtain ⟨w, hw, s, _hs, rfl⟩ :=
          cosineMatches_mem msqrt q (candidateWorlds worlds) cms hcm m hm3
        obtain ⟨hwin, hwt⟩ := List.mem_filter.mp hw
        exact ⟨w, hwin, hwt, truthy_ne_none _ hwt, rfl⟩
  · intro r hr m hm
    cases qe with
    | none =>
      obtain rfl := hnone _ r rfl hr
      simp at hm
    | some q =>
      simp only [similar_l2, Except.ok.injEq] at hr
      subst hr
      have hm2 : m ∈ (l2Matches msqrt q worlds).mergeSort ascLe :=
        (List.take_sublist _ _).subset hm
      have hm3 : m ∈ l2Matches msqrt q worlds :=
        (List.mergeSort_perm (l2Matches msqrt q worlds) ascLe).subset hm2
      obtain ⟨w, hw, rfl⟩ := List.mem_map.mp hm3
      obtain ⟨hwin, hwt⟩ := List.mem_filter.mp hw
      exact ⟨w, hwin, hwt, truthy_ne_none _ hwt, rfl⟩

/-- C8 witness: the single match the dot endpoint returns for a one-world
store comes from that stored world. -/
theorem endpoints_exclude_absent_witness :
    ∃ w, w ∈ [wA] ∧ truthyEmbedding w.embedding = true
      ∧ w.embedding ≠ none
      ∧ mkMatch wA (dot_product wQ [3])
          = mkMatch w (mkMatch wA (dot_product wQ [3])).score := by
  refine (endpoints_exclude_absent (fun _ => 1) (some wQ) [wA] 2).1
    (((dotMatches wQ [wA]).mergeSort descLe).take 2) rfl
    (mkMatch wA (dot_product wQ [3])) ?_
  have h1 : dotMatches wQ [wA] = [mkMatch wA (dot_product wQ [3])] := by
    simp [dotMatches, candidateWorlds, truthyEmbedding, wA]
  rw [h1, List.mergeSort_singleton]
  simp

/-- C10 counterexample: a stored world with a present but empty
embedding; the dot endpoint with an absent query embedding returns an
empty match list instead of raising. -/
theorem similar_none_no_raise_counterexample :
    similar_dot none [cw0] 3 = .ok [] ∧ cw0.embedding.isSome = true :=
  ⟨rfl, rfl⟩

/-- C10 amended: when the query-embedding call returns an absent
embedding and at least one stored world has a Python-truthy (present and
non-empty) embedding, each similarity endpoint raises TypeError (the
metric iterates the absent query vector) instead of degrading to an
empty or error-carrying response. -/
theorem similar_none_query_raises (msqrt : ℚ → ℚ) (worlds : List FullWorld)
    (topN : ℕ) (hex : ∃ w ∈ worlds, truthyEmbedding w.embedding = true) :
    similar_dot none worlds topN = .error .typeError
    ∧ similar_cosine msqrt none worlds topN = .error .typeError
    ∧ similar_l2 msqrt none worlds topN = .error .typeError := by
  obtain ⟨w, hw, ht⟩ := hex
  have hmem : w ∈ candidateWorlds worlds := List.mem_filter.mpr ⟨hw, ht⟩
  have hne : (candidateWorlds worlds).isEmpty = false := by
    cases hcand : candidateWorlds worlds with
    | nil =>
      rw [hcand] at hmem
      simp at hmem
    | cons a l => simp
  refine ⟨?_, ?_, ?_⟩ <;> simp [similar_dot, similar_cosine, similar_l2, hne]

/-- C10 amended witness: one stored world with a non-empty embedding. -/
theorem similar_none_query_raises_witness :
    similar_dot none [wA] 3 = .error .typeError
    ∧ similar_cosine id none [wA] 3 = .error .typeError
    ∧ similar_l2 id none [wA] 3 = .error .typeError :=
  similar_none_query_raises id [wA] 3 ⟨wA, List.mem_cons_self wA [], rfl⟩

end NullOrigin
